import Mathlib

/-!
Shallow embedding of the A2C-GNN agent implemented in
src/gnn-rl-for-eamod-main-EdgeParsings/src/algos/a2c_gnn.py.

The embedding covers, faithfully to the Python source:
  - the edge-topology construction of GNNParser.parse_obs (versions 0 to 4),
  - the feed-forward head of GNNCritic.forward after the convolution layers,
  - the gate / Dirichlet action assembly of A2C.select_action,
  - the buffer state of the A2C agent and the effect of A2C.training_step,
    A2C.set_env and A2C.select_action on it.

Machine floats are modelled by exact rationals; the library-computed
quantities that the claims never inspect numerically (torch log, torch and
numpy standard deviation, the Dirichlet sampler and its log density) are
taken as explicit parameters, so every statement quantifies over them.
-/

namespace A2CGNN

/-- A node of the EAMoD graph: a (region, charge level) pair, exactly the
tuples stored in env.nodes and destructured as n[0], n[1] in the source. -/
abbrev Node := ℤ × ℤ

/-- The nested loop in GNNParser.parse_obs that scans all ordered node pairs
(for o in self.env.nodes: for d in self.env.nodes:) and appends [o, d] for
the pairs satisfying the active topology predicate. -/
def pairScan (pred : Node → Node → Bool) (nodes : List Node) : List (Node × Node) :=
  nodes.flatMap (fun o => (nodes.filter (fun d => pred o d)).map (fun d => (o, d)))

/-- Topology predicate of version 1 (self loops only):
o[0] == d[0] and o[1] == d[1]. -/
def predV1 (o d : Node) : Bool := o.1 == d.1 && o.2 == d.2

/-- Topology predicate of version 3 (grid style one-hop connections):
(o[1] == d[1] and o[0] != d[0]) or (o[1] == d[1] - 1 and o[0] == d[0])
or (o[1] == d[1] + 1 and o[0] == d[0]). -/
def predV3 (o d : Node) : Bool :=
  (o.2 == d.2 && o.1 != d.1) || (o.2 == d.2 - 1 && o.1 == d.1) ||
    (o.2 == d.2 + 1 && o.1 == d.1)

/-- Topology predicate of version 4 (version 3 plus self loops):
(o[1] == d[1] and o[0] == d[0]) or (o[1] == d[1] and o[0] != d[0]) or
(o[1] == d[1] - 1 and o[0] == d[0]) or (o[1] == d[1] + 1 and o[0] == d[0]). -/
def predV4 (o d : Node) : Bool :=
  (o.2 == d.2 && o.1 == d.1) || (o.2 == d.2 && o.1 != d.1) ||
    (o.2 == d.2 - 1 && o.1 == d.1) || (o.2 == d.2 + 1 && o.1 == d.1)

/-- Conversion of a node-pair edge list to an index-pair list via
self.env.nodes.index(e[0]) and self.env.nodes.index(e[1]); python list.index
returns the first matching position, as List.indexOf does. -/
def toEdgeIndex (nodes : List Node) (edges : List (Node × Node)) : List (ℕ × ℕ) :=
  edges.map (fun e => (nodes.indexOf e.1, nodes.indexOf e.2))

/-- Version 0: edge_index = self.env.gcn_edge_idx, the simulator native
edge index, passed through unchanged. -/
def edgeIndexV0 (native : List (ℕ × ℕ)) : List (ℕ × ℕ) := native

/-- Version 1: self loops only. -/
def edgeIndexV1 (nodes : List Node) : List (ℕ × ℕ) :=
  toEdgeIndex nodes (pairScan predV1 nodes)

/-- Version 2: the self-loop index list concatenated with the native edge
index (torch.cat((edge_idx, self.env.gcn_edge_idx), 1)). -/
def edgeIndexV2 (nodes : List Node) (native : List (ℕ × ℕ)) : List (ℕ × ℕ) :=
  toEdgeIndex nodes (pairScan predV1 nodes) ++ native

/-- Version 3: grid style one-hop connections. -/
def edgeIndexV3 (nodes : List Node) : List (ℕ × ℕ) :=
  toEdgeIndex nodes (pairScan predV3 nodes)

/-- Version 4: version 3 plus self loops. -/
def edgeIndexV4 (nodes : List Node) : List (ℕ × ℕ) :=
  toEdgeIndex nodes (pairScan predV4 nodes)

lemma predV1_iff (o d : Node) : predV1 o d = true ↔ o = d := by
  simp [predV1, Prod.ext_iff]

lemma predV3_imp_predV4 (o d : Node) (h : predV3 o d = true) : predV4 o d = true := by
  simp only [predV3, Bool.or_eq_true] at h
  simp only [predV4, Bool.or_eq_true]
  tauto

lemma pairScan_subset_of_imp (p q : Node → Node → Bool)
    (hpq : ∀ o d, p o d = true → q o d = true) (nodes : List Node) :
    pairScan p nodes ⊆ pairScan q nodes := by
  intro e he
  simp only [pairScan, List.mem_flatMap, List.mem_map, List.mem_filter] at he ⊢
  obtain ⟨o, ho, d, ⟨hd, hpd⟩, rfl⟩ := he
  exact ⟨o, ho, d, ⟨hd, hpq o d hpd⟩, rfl⟩

/-- Claim C6: for every node set, the edge set produced under topology
policy 1 is a subset of the edge set produced under policy 2, and the edge
set produced under policy 3 is a subset of the edge set produced under
policy 4. -/
theorem topology_subset_v1v2_v3v4 (nodes : List Node) (native : List (ℕ × ℕ)) :
    edgeIndexV1 nodes ⊆ edgeIndexV2 nodes native ∧
      edgeIndexV3 nodes ⊆ edgeIndexV4 nodes := by
  constructor
  · exact List.subset_append_left _ _
  · exact List.map_subset _ (pairScan_subset_of_imp _ _ predV3_imp_predV4 nodes)

lemma filter_predV1_of_nodup (l : List Node) (hl : l.Nodup) (o : Node) (ho : o ∈ l) :
    l.filter (fun d => predV1 o d) = [o] := by
  induction l with
  | nil => cases ho
  | cons a t ih =>
    rcases List.mem_cons.mp ho with h | h
    · subst h
      have hot : o ∉ t := (List.nodup_cons.mp hl).1
      have ht : t.filter (fun d => predV1 o d) = [] := by
        rw [List.filter_eq_nil_iff]
        intro d hd hpd
        exact hot ((predV1_iff o d).mp hpd ▸ hd)
      rw [List.filter_cons_of_pos, ht]
      exact (predV1_iff o o).mpr rfl
    · have hoa : o ≠ a := by
        intro hoa
        exact (List.nodup_cons.mp hl).1 (hoa ▸ h)
      rw [List.filter_cons_of_neg, ih (List.nodup_cons.mp hl).2 h]
      simp only [Bool.not_eq_true]
      rw [Bool.eq_false_iff]
      intro hpd
      exact hoa ((predV1_iff o a).mp hpd)

lemma bind_eq_map_of_all_single {α β : Type} (f : α → List β) (g : α → β)
    (l : List α) (h : ∀ o ∈ l, f o = [g o]) : l.flatMap f = l.map g := by
  induction l with
  | nil => rfl
  | cons a t ih =>
    rw [List.flatMap_cons, h a (List.mem_cons_self a t),
      ih (fun o ho => h o (List.mem_cons_of_mem a ho)), List.map_cons]
    rfl

lemma pairScan_predV1_of_nodup (nodes : List Node) (h : nodes.Nodup) :
    pairScan predV1 nodes = nodes.map (fun n => (n, n)) := by
  unfold pairScan
  apply bind_eq_map_of_all_single
  intro o ho
  rw [filter_predV1_of_nodup nodes h o ho]
  rfl

/-- Claim C7: for every duplicate-free node set of size N, topology policy 1
produces exactly N edges, one self loop per node (origin equals destination
in both region and charge level, hence equal node indices) and nothing else;
topology policy 0 produces exactly the simulator native edge index. -/
theorem topology_v1_self_loops_v0_native (nodes : List Node) (native : List (ℕ × ℕ))
    (h : nodes.Nodup) :
    pairScan predV1 nodes = nodes.map (fun n => (n, n)) ∧
      edgeIndexV1 nodes = nodes.map (fun n => (nodes.indexOf n, nodes.indexOf n)) ∧
      (edgeIndexV1 nodes).length = nodes.length ∧
      (∀ e ∈ edgeIndexV1 nodes, e.1 = e.2) ∧
      edgeIndexV0 native = native := by
  have hps := pairScan_predV1_of_nodup nodes h
  have hidx : edgeIndexV1 nodes = nodes.map (fun n => (nodes.indexOf n, nodes.indexOf n)) := by
    rw [edgeIndexV1, toEdgeIndex, hps, List.map_map]
    rfl
  refine ⟨hps, hidx, ?_, ?_, rfl⟩
  · rw [hidx, List.length_map]
  · intro e he
    rw [hidx] at he
    obtain ⟨n, _, rfl⟩ := List.mem_map.mp he
    rfl

/-- Closed instance of C7 in the 3-node scenario of the specification. -/
theorem topology_v1_self_loops_v0_native_witness :
    ([((0 : ℤ), (0 : ℤ)), (0, 1), (1, 0)] : List Node).Nodup ∧
      (pairScan predV1 [((0 : ℤ), (0 : ℤ)), (0, 1), (1, 0)] =
          ([((0 : ℤ), (0 : ℤ)), (0, 1), (1, 0)] : List Node).map (fun n => (n, n)) ∧
        edgeIndexV1 [((0 : ℤ), (0 : ℤ)), (0, 1), (1, 0)] =
          ([((0 : ℤ), (0 : ℤ)), (0, 1), (1, 0)] : List Node).map
            (fun n => (([((0 : ℤ), (0 : ℤ)), (0, 1), (1, 0)] : List Node).indexOf n,
              ([((0 : ℤ), (0 : ℤ)), (0, 1), (1, 0)] : List Node).indexOf n)) ∧
        (edgeIndexV1 [((0 : ℤ), (0 : ℤ)), (0, 1), (1, 0)]).length = 3 ∧
        (∀ e ∈ edgeIndexV1 [((0 : ℤ), (0 : ℤ)), (0, 1), (1, 0)], e.1 = e.2) ∧
        edgeIndexV0 [(0, 1), (1, 2), (2, 0), (0, 2)] = [(0, 1), (1, 2), (2, 0), (0, 2)]) :=
  ⟨by decide,
    topology_v1_self_loops_v0_native [((0 : ℤ), (0 : ℤ)), (0, 1), (1, 0)]
      [(0, 1), (1, 2), (2, 0), (0, 2)] (by decide)⟩

/-- The concentration values of the nodes whose Bernoulli draw participates,
kept in original node order: the concentration_without_zeros accumulation of
the gate loop in A2C.select_action. -/
def concentrationWithoutZeros (conc : List ℚ) (draws : List Bool) : List ℚ :=
  ((conc.zip draws).filter (fun cb => cb.2)).map (fun cb => cb.1)

/-- The log_prob_for_zeros accumulator of the gate loop in A2C.select_action:
starting from 0, each node adds log(non_zero[node]) when its draw
participates and log(1 - non_zero[node]) otherwise. The torch log is the
parameter lg. -/
def logProbForZeros (lg : ℚ → ℚ) (nz : List ℚ) (draws : List Bool) : ℚ :=
  (nz.zip draws).foldl (fun acc pb => acc + (if pb.2 then lg pb.1 else lg (1 - pb.1))) 0

/-- The action reassembly loop of A2C.select_action: walks the nodes in
order, emits 0.0 for abstaining nodes and consumes the next Dirichlet
component for participating nodes; none models the python IndexError raised
when the Dirichlet vector runs out before the participating nodes do. -/
def reassembleAction : List Bool → List ℚ → Option (List ℚ)
  | [], _ => some []
  | false :: bs, ds => (reassembleAction bs ds).map (fun r => 0 :: r)
  | true :: _, [] => none
  | true :: bs, d :: ds => (reassembleAction bs ds).map (fun r => d :: r)

/-- The divisor guard 1e-16 used by the eval-mode normalization. -/
def divEps : ℚ := 1 / 10 ^ 16

/-- Eval-mode replacement of the Dirichlet sample:
concentration_without_zeros / (concentration_without_zeros.sum() + 1e-16). -/
def dirichletEvalAction (cwz : List ℚ) : List ℚ :=
  cwz.map (fun c => c / (cwz.sum + divEps))

/-- The pair returned and recorded by one call of A2C.select_action: the
emitted action vector and the log probability stored in the SavedAction. -/
structure SelectResult where
  action : List ℚ
  logProb : ℚ
deriving DecidableEq

/-- A2C.select_action with the stochastic and library-computed inputs made
explicit: conc and nz are the actor outputs (concentration and participation
probability per node), draws the Bernoulli outcomes
(torch.bernoulli(non_zero[node]) > 0), dirSample the Dirichlet rsample over
the participating concentrations, dirLogProb the torch Dirichlet log density
of the drawn point, and lg the torch log. -/
def selectActionCore (lg : ℚ → ℚ) (conc nz : List ℚ) (draws : List Bool)
    (evalMode : Bool) (dirSample : List ℚ) (dirLogProb : ℚ) : Option SelectResult :=
  let cwz := concentrationWithoutZeros conc draws
  let lpz := logProbForZeros lg nz draws
  if cwz.isEmpty then
    (reassembleAction draws []).map (fun a => ⟨a, 0 + lpz⟩)
  else
    let dirAction := if evalMode then dirichletEvalAction cwz else dirSample
    (reassembleAction draws dirAction).map (fun a => ⟨a, dirLogProb + lpz⟩)

lemma reassembleAction_count (draws : List Bool) (dir : List ℚ)
    (h : dir.length = draws.count true) :
    ∃ a, reassembleAction draws dir = some a ∧ a.length = draws.length ∧
      a.sum = dir.sum ∧ ∀ i, draws.getD i true = false → a.getD i 1 = 0 := by
  induction draws generalizing dir with
  | nil =>
    have hdir : dir = [] := List.eq_nil_of_length_eq_zero (by simpa using h)
    subst hdir
    refine ⟨[], rfl, rfl, rfl, fun i hi => ?_⟩
    simp [List.getD] at hi
  | cons b bs ih =>
    cases b
    · have h' : dir.length = bs.count true := by simpa [List.count_cons] using h
      obtain ⟨a, ha, hlen, hsum, hidx⟩ := ih dir h'
      refine ⟨0 :: a, ?_, ?_, ?_, ?_⟩
      · simp [reassembleAction, ha]
      · simp [hlen]
      · simp [hsum]
      · intro i hi
        cases i with
        | zero => simp
        | succ j => simpa using hidx j (by simpa using hi)
    · have h' : dir.length = bs.count true + 1 := by simpa [List.count_cons] using h
      obtain ⟨d, ds, rfl⟩ : ∃ d ds, dir = d :: ds := by
        cases dir with
        | nil => simp at h'
        | cons d ds => exact ⟨d, ds, rfl⟩
      obtain ⟨a, ha, hlen, hsum, hidx⟩ := ih ds (by simpa using h')
      refine ⟨d :: a, ?_, ?_, ?_, ?_⟩
      · simp [reassembleAction, ha]
      · simp [hlen]
      · simp [hsum]
      · intro i hi
        cases i with
        | zero => simp at hi
        | succ j => simpa using hidx j (by simpa using hi)

lemma reassembleAction_all_false (draws : List Bool) (h : draws.count true = 0) :
    reassembleAction draws [] = some (List.replicate draws.length 0) := by
  induction draws with
  | nil => rfl
  | cons b bs ih =>
    cases b
    · have h' : bs.count true = 0 := by simpa [List.count_cons] using h
      simp [reassembleAction, ih h', List.replicate_succ]
    · simp [List.count_cons] at h

lemma reassembleAction_filter_map (f : ℚ → ℚ) (draws : List Bool) :
    ∀ conc : List ℚ, draws.length = conc.length →
      reassembleAction draws ((concentrationWithoutZeros conc draws).map f) =
        some (List.zipWith (fun b c => if b then f c else 0) draws conc) := by
  induction draws with
  | nil =>
    intro conc h
    simp [concentrationWithoutZeros, reassembleAction]
  | cons b bs ih =>
    intro conc h
    cases conc with
    | nil => simp at h
    | cons c cs =>
      have h' : bs.length = cs.length := by simpa using h
      cases b
      · have hcwz : concentrationWithoutZeros (c :: cs) (false :: bs) =
            concentrationWithoutZeros cs bs := by
          simp [concentrationWithoutZeros]
        rw [hcwz]
        simp only [reassembleAction, List.zipWith_cons_cons]
        rw [ih cs h']
        rfl
      · have hcwz : concentrationWithoutZeros (c :: cs) (true :: bs) =
            c :: concentrationWithoutZeros cs bs := by
          simp [concentrationWithoutZeros]
        rw [hcwz]
        simp only [List.map_cons, reassembleAction, List.zipWith_cons_cons]
        rw [ih cs h']
        rfl

lemma concentrationWithoutZeros_eq_nil_iff (conc : List ℚ) (draws : List Bool)
    (h : conc.length = draws.length) :
    concentrationWithoutZeros conc draws = [] ↔ draws.any id = false := by
  induction conc generalizing draws with
  | nil =>
    cases draws with
    | nil => simp [concentrationWithoutZeros]
    | cons b bs => simp at h
  | cons c cs ih =>
    cases draws with
    | nil => simp at h
    | cons b bs =>
      have h' : cs.length = bs.length := by simpa using h
      cases b
      · simpa [concentrationWithoutZeros] using ih bs h'
      · simp [concentrationWithoutZeros]

lemma concentrationWithoutZeros_length (conc : List ℚ) (draws : List Bool)
    (h : conc.length = draws.length) :
    (concentrationWithoutZeros conc draws).length = draws.count true := by
  induction conc generalizing draws with
  | nil =>
    cases draws with
    | nil => simp [concentrationWithoutZeros]
    | cons b bs => simp at h
  | cons c cs ih =>
    cases draws with
    | nil => simp at h
    | cons b bs =>
      have h' : cs.length = bs.length := by simpa using h
      cases b
      · simpa [concentrationWithoutZeros, List.count_cons] using ih bs h'
      · simpa [concentrationWithoutZeros, List.count_cons] using ih bs h'

lemma foldl_add_eq_sum {α : Type} (f : α → ℚ) (l : List α) (a : ℚ) :
    l.foldl (fun acc x => acc + f x) a = a + (l.map f).sum := by
  induction l generalizing a with
  | nil => simp
  | cons x xs ih => simp [ih, add_assoc]

lemma logProbForZeros_eq_sum (lg : ℚ → ℚ) (nz : List ℚ) (draws : List Bool) :
    logProbForZeros lg nz draws =
      ((nz.zip draws).map (fun pb => if pb.2 then lg pb.1 else lg (1 - pb.1))).sum := by
  simpa using foldl_add_eq_sum
    (fun pb : ℚ × Bool => if pb.2 then lg pb.1 else lg (1 - pb.1)) (nz.zip draws) 0

lemma getD_replicate_zero (i n : ℕ) (h : i < n) :
    (List.replicate n (0 : ℚ)).getD i 1 = 0 := by
  induction i generalizing n with
  | zero =>
    cases n with
    | zero => cases h
    | succ m => simp [List.replicate_succ]
  | succ j ih =>
    cases n with
    | zero => cases h
    | succ m =>
      simpa [List.replicate_succ] using ih m (Nat.lt_of_succ_lt_succ h)

/-- Claim C2: the action vector returned by select_action has one entry per
node; every node whose Bernoulli draw abstains gets exactly 0.0; if at least
one node participates the vector sums to 1 within 1e-5 (exactly 1 in exact
arithmetic, since the Dirichlet sample lies on the simplex); if no node
participates the vector is all-zero. -/
theorem select_action_vector_contract (lg : ℚ → ℚ) (conc nz : List ℚ)
    (draws : List Bool) (dirSample : List ℚ) (dirLogProb : ℚ)
    (hc : conc.length = nz.length) (hd : draws.length = nz.length)
    (hlen : dirSample.length = draws.count true)
    (hsum : draws.any id = true → dirSample.sum = 1) :
    ∃ res, selectActionCore lg conc nz draws false dirSample dirLogProb = some res ∧
      res.action.length = nz.length ∧
      (∀ i, draws.getD i true = false → res.action.getD i 1 = 0) ∧
      (draws.any id = true → |res.action.sum - 1| ≤ 1 / 100000) ∧
      (draws.any id = false → res.action = List.replicate nz.length 0) := by
  have hcd : conc.length = draws.length := hc.trans hd.symm
  by_cases hany : draws.any id = true
  · have hne : concentrationWithoutZeros conc draws ≠ [] := by
      intro h0
      rw [(concentrationWithoutZeros_eq_nil_iff conc draws hcd).mp h0] at hany
      cases hany
    obtain ⟨a, ha, halen, hasum, haidx⟩ := reassembleAction_count draws dirSample hlen
    refine ⟨⟨a, dirLogProb + logProbForZeros lg nz draws⟩, ?_, ?_, ?_, ?_, ?_⟩
    · simp only [selectActionCore]
      rw [if_neg (by simpa using hne)]
      simp only [Bool.false_eq_true, if_false, ha, Option.map_some']
    · simpa [hd] using halen
    · exact haidx
    · intro _
      rw [hasum, hsum hany]
      norm_num
    · intro hno
      rw [hno] at hany
      cases hany
  · have hanyF : draws.any id = false := by
      cases hq : draws.any id
      · rfl
      · exact absurd hq hany
    have hnil : concentrationWithoutZeros conc draws = [] :=
      (concentrationWithoutZeros_eq_nil_iff conc draws hcd).mpr hanyF
    have hcount : draws.count true = 0 := by
      rw [List.count_eq_zero]
      intro hmem
      have := List.any_eq_false.mp hanyF true hmem
      simp at this
    have hre := reassembleAction_all_false draws hcount
    refine ⟨⟨List.replicate draws.length 0, 0 + logProbForZeros lg nz draws⟩, ?_, ?_, ?_, ?_, ?_⟩
    · simp only [selectActionCore]
      rw [if_pos (by simpa using hnil), hre, Option.map_some']
    · simp [hd]
    · intro i hi
      have hilt : i < draws.length := by
        by_contra hge
        rw [List.getD_eq_getElem?_getD, List.getElem?_eq_none (Nat.le_of_not_lt hge)] at hi
        cases hi
      exact getD_replicate_zero i draws.length hilt
    · intro hat
      rw [hat] at hanyF
      cases hanyF
    · intro _
      rw [hd]

/-- Closed instance of C2: two nodes, the first participating. -/
theorem select_action_vector_contract_witness :
    ∃ res, selectActionCore (fun _ => (0 : ℚ)) [1, 2] [1 / 2, 1 / 3] [true, false] false
        [1] 5 = some res ∧
      res.action.length = ([1 / 2, (1 : ℚ) / 3] : List ℚ).length ∧
      (∀ i, ([true, false] : List Bool).getD i true = false → res.action.getD i 1 = 0) ∧
      (([true, false] : List Bool).any id = true → |res.action.sum - 1| ≤ 1 / 100000) ∧
      (([true, false] : List Bool).any id = false →
        res.action = List.replicate ([1 / 2, (1 : ℚ) / 3] : List ℚ).length 0) :=
  select_action_vector_contract (fun _ => 0) [1, 2] [1 / 2, 1 / 3] [true, false] [1] 5
    (by decide) (by decide) (by decide) (fun _ => by simp)

/-- Claim C3: the log probability recorded with the SavedAction equals the
sum over all nodes of the Bernoulli gate log probability (log p for a
participating node, log(1 - p) otherwise) plus the Dirichlet log probability
of the drawn point over participating nodes; when zero nodes participate the
continuous term is exactly zero and the call still succeeds. -/
theorem select_action_log_prob_sum (lg : ℚ → ℚ) (conc nz : List ℚ)
    (draws : List Bool) (evalMode : Bool) (dirSample : List ℚ) (dirLogProb : ℚ)
    (hc : conc.length = nz.length) (hd : draws.length = nz.length)
    (hlen : dirSample.length = draws.count true) :
    ∃ res, selectActionCore lg conc nz draws evalMode dirSample dirLogProb = some res ∧
      res.logProb = (if draws.any id then dirLogProb else 0) +
        ((nz.zip draws).map (fun pb => if pb.2 then lg pb.1 else lg (1 - pb.1))).sum := by
  have hcd : conc.length = draws.length := hc.trans hd.symm
  by_cases hany : draws.any id = true
  · have hne : concentrationWithoutZeros conc draws ≠ [] := by
      intro h0
      rw [(concentrationWithoutZeros_eq_nil_iff conc draws hcd).mp h0] at hany
      cases hany
    have hdlen : (if evalMode then dirichletEvalAction (concentrationWithoutZeros conc draws)
        else dirSample).length = draws.count true := by
      cases evalMode
      · simpa using hlen
      · simpa [dirichletEvalAction] using concentrationWithoutZeros_length conc draws hcd
    obtain ⟨a, ha, _, _, _⟩ := reassembleAction_count draws _ hdlen
    refine ⟨⟨a, dirLogProb + logProbForZeros lg nz draws⟩, ?_, ?_⟩
    · simp only [selectActionCore]
      rw [if_neg (by simpa using hne), ha, Option.map_some']
    · rw [if_pos hany, logProbForZeros_eq_sum]
  · have hanyF : draws.any id = false := by
      cases hq : draws.any id
      · rfl
      · exact absurd hq hany
    have hnil : concentrationWithoutZeros conc draws = [] :=
      (concentrationWithoutZeros_eq_nil_iff conc draws hcd).mpr hanyF
    have hcount : draws.count true = 0 := by
      rw [List.count_eq_zero]
      intro hmem
      have := List.any_eq_false.mp hanyF true hmem
      simp at this
    refine ⟨⟨List.replicate draws.length 0, 0 + logProbForZeros lg nz draws⟩, ?_, ?_⟩
    · simp only [selectActionCore]
      rw [if_pos (by simpa using hnil), reassembleAction_all_false draws hcount,
        Option.map_some']
    · rw [hanyF, if_neg (by simp), logProbForZeros_eq_sum]

/-- Closed instance of C3: one node, abstaining, so the continuous term
vanishes and only the gate term remains. -/
theorem select_action_log_prob_sum_witness :
    ∃ res, selectActionCore (fun q => q + 1) [1] [1 / 2] [false] false [] 7 = some res ∧
      res.logProb = (if ([false] : List Bool).any id then 7 else 0) +
        ((([(1 : ℚ) / 2]).zip [false]).map
          (fun pb => if pb.2 then pb.1 + 1 else (1 - pb.1) + 1)).sum :=
  select_action_log_prob_sum (fun q => q + 1) [1] [1 / 2] [false] false [] 7
    (by decide) (by decide) (by decide)

/-- Claim C8: in evaluation mode the continuous part of the action is
deterministic: the result does not depend on the Dirichlet sample argument
at all, and the emitted vector gives every participating node its
concentration divided by (sum of participating concentrations + 1e-16) while
abstaining nodes get 0. -/
theorem eval_mode_deterministic (lg : ℚ → ℚ) (conc nz : List ℚ)
    (draws : List Bool) (dirSample dirSample' : List ℚ) (dirLogProb : ℚ)
    (hc : conc.length = nz.length) (hd : draws.length = nz.length) :
    selectActionCore lg conc nz draws true dirSample dirLogProb =
      selectActionCore lg conc nz draws true dirSample' dirLogProb ∧
    ∃ res, selectActionCore lg conc nz draws true dirSample dirLogProb = some res ∧
      res.action = List.zipWith
        (fun b c => if b then
          c / ((concentrationWithoutZeros conc draws).sum + divEps) else 0)
        draws conc := by
  have hcd : draws.length = conc.length := hd.trans hc.symm
  have hmerge := reassembleAction_filter_map
    (fun c => c / ((concentrationWithoutZeros conc draws).sum + divEps)) draws conc hcd
  constructor
  · rfl
  · by_cases hE : concentrationWithoutZeros conc draws = []
    · refine ⟨⟨List.zipWith (fun b c => if b then
          c / ((concentrationWithoutZeros conc draws).sum + divEps) else 0) draws conc,
          0 + logProbForZeros lg nz draws⟩, ?_, rfl⟩
      simp only [selectActionCore]
      rw [if_pos (by simpa using hE)]
      have : reassembleAction draws [] =
          some (List.zipWith (fun b c => if b then
            c / ((concentrationWithoutZeros conc draws).sum + divEps) else 0) draws conc) := by
        rw [← hmerge, hE]
        rfl
      rw [this, Option.map_some']
    · refine ⟨⟨List.zipWith (fun b c => if b then
          c / ((concentrationWithoutZeros conc draws).sum + divEps) else 0) draws conc,
          dirLogProb + logProbForZeros lg nz draws⟩, ?_, rfl⟩
      simp only [selectActionCore, if_true]
      rw [if_neg (by simpa using hE)]
      have hdir : dirichletEvalAction (concentrationWithoutZeros conc draws) =
          (concentrationWithoutZeros conc draws).map
            (fun c => c / ((concentrationWithoutZeros conc draws).sum + divEps)) := by
        simp [dirichletEvalAction]
      rw [hdir, hmerge, Option.map_some']

/-- Closed instance of C8: two nodes, the second participating; the Dirichlet
sample arguments differ yet the results agree. -/
theorem eval_mode_deterministic_witness :
    (selectActionCore (fun _ => (0 : ℚ)) [1, 3] [1 / 2, 1 / 3] [false, true] true [1] 5 =
      selectActionCore (fun _ => (0 : ℚ)) [1, 3] [1 / 2, 1 / 3] [false, true] true [2 / 3] 5) ∧
    ∃ res, selectActionCore (fun _ => (0 : ℚ)) [1, 3] [1 / 2, 1 / 3] [false, true] true
        [1] 5 = some res ∧
      res.action = List.zipWith
        (fun b c => if b then
          c / ((concentrationWithoutZeros [1, 3] [false, true]).sum + divEps) else 0)
        [false, true] [1, 3] :=
  eval_mode_deterministic (fun _ => 0) [1, 3] [1 / 2, 1 / 3] [false, true] [1] [2 / 3] 5
    (by decide) (by decide)

/-- A dense rank-2 tensor, row major: one inner list per node row. -/
abbrev Mat := List (List ℚ)

/-- Dot product of two vectors, as inside a torch linear layer. -/
def dot (a b : List ℚ) : ℚ := (List.zipWith (fun x y => x * y) a b).sum

/-- One application of nn.Linear with weight rows W and bias b to a single
input row: output j = dot(W[j], v) + b[j]. -/
def linear (W : Mat) (b : List ℚ) (v : List ℚ) : List ℚ :=
  List.zipWith (fun w bi => dot w v + bi) W b

/-- nn.Linear applied to every row of an [N, in] tensor. -/
def linearRows (W : Mat) (b : List ℚ) (x : Mat) : Mat := x.map (linear W b)

/-- An elementwise activation applied to every entry of a tensor, as
F.softplus is in GNNCritic.forward; the softplus curve itself is the
parameter sp, since its value is irrational on rationals and no claim
depends on it. -/
def mapRows (sp : ℚ → ℚ) (x : Mat) : Mat := x.map (fun r => r.map sp)

/-- The learned weights of the feed-forward stack of GNNCritic: lin1 to
lin4, where lin4 = nn.Linear(32, 1) has a single output row. -/
structure CriticWeights where
  W1 : Mat
  b1 : List ℚ
  W2 : Mat
  b2 : List ℚ
  W3 : Mat
  b3 : List ℚ
  W4 : Mat
  b4 : List ℚ

/-- The tail of GNNCritic.forward after the convolution layers:
out_3c = torch.cat([data.x, out_3], dim=1), then lin1, lin2, lin3 each
followed by softplus, then lin4, returned with no pooling across nodes.
xIn is data.x and out3 the third convolution output; the library graph
convolutions return one row per node. A2C.forward passes this matrix on
unchanged as the value recorded with each SavedAction. -/
def criticHead (sp : ℚ → ℚ) (w : CriticWeights) (xIn out3 : Mat) : Mat :=
  let out3c := List.zipWith (fun r s => r ++ s) xIn out3
  let h1 := mapRows sp (linearRows w.W1 w.b1 out3c)
  let h2 := mapRows sp (linearRows w.W2 w.b2 h1)
  let h3 := mapRows sp (linearRows w.W3 w.b3 h2)
  linearRows w.W4 w.b4 h3

/-- Number of elements of a tensor (torch numel); tensor.item() is defined
exactly when this is 1. -/
def numel (x : Mat) : ℕ := (x.map (fun r => r.length)).sum

/-- Claim C1 is refuted on the code: the critic head emits one row per input
node and performs no reduction across nodes, so on a concrete two-node
input (with a Linear(., 1) shaped final layer, hence one column) the value
tensor recorded with the SavedAction has 2 elements, not 1. -/
theorem critic_head_per_node_not_scalar :
    (∀ (sp : ℚ → ℚ) (w : CriticWeights) (xIn out3 : Mat),
      (criticHead sp w xIn out3).length = min xIn.length out3.length) ∧
    (∀ sp : ℚ → ℚ, numel (criticHead sp
        ⟨[[1, 1]], [0], [[1]], [0], [[1]], [0], [[1]], [0]⟩
        [[1], [2]] [[3], [4]]) = 2) ∧ 2 ≠ 1 := by
  refine ⟨?_, ?_, by decide⟩
  · intro sp w xIn out3
    simp [criticHead, linearRows, mapRows, List.length_zipWith]
  · intro sp
    simp [criticHead, numel, linearRows, mapRows, linear, dot]

/-- A SavedAction record: the scalar log probability and the critic value
tensor of the step, one row per node, flattened to its entry list. -/
structure SavedAction where
  log_prob : ℚ
  value : List ℚ
deriving DecidableEq

/-- The mutable buffers of the A2C agent touched by select_action, set_env
and training_step. -/
structure AgentBuffers where
  saved_actions : List SavedAction
  rewards : List ℚ
  means_concentration : List ℚ
  std_concentration : List ℚ
deriving DecidableEq

/-- args.gamma = 0.97. -/
def gammaQ : ℚ := 97 / 100

/-- self.eps = np.finfo(np.float32).eps, which is exactly 2 to the -23. -/
def epsQ : ℚ := 1 / 2 ^ 23

/-- numpy or torch mean of a list of floats; on the empty list numpy yields
NaN, which no claim inspects, so the rational model yields junk 0 there. -/
def npMean (l : List ℚ) : ℚ := l.sum / (l.length : ℚ)

/-- The backward discounted-return loop of A2C.training_step: R starts at 0,
walks the reward list back to front with R = r + gamma * R, inserting every
R at the front of the result, so the output is in forward time order. -/
def discountedReturns (gamma : ℚ) : List ℚ → List ℚ
  | [] => []
  | r :: rest =>
    let rs := discountedReturns gamma rest
    (r + gamma * rs.headD 0) :: rs

/-- The two exceptions training_step can raise: tensor.item() on a tensor
with more than one element, and torch.stack on an empty tensor list. -/
inductive TrainErrKind where
  | itemNotScalar
  | emptyLossTensorList
deriving DecidableEq

/-- torch.Tensor.item(): succeeds exactly on a one-element tensor. -/
def tensorItem (v : List ℚ) : Except TrainErrKind ℚ :=
  match v with
  | [x] => Except.ok x
  | _ => Except.error TrainErrKind.itemNotScalar

/-- The first loop of A2C.training_step over saved_actions, collecting
value.item() for every record left to right; the first non-scalar value
raises. (log_prob.item() also runs there, but the stored log probability is
already a scalar in the model.) -/
def itemsOf : List SavedAction → Except TrainErrKind (List ℚ)
  | [] => Except.ok []
  | sa :: rest =>
    match tensorItem sa.value with
    | Except.error e => Except.error e
    | Except.ok v =>
      match itemsOf rest with
      | Except.error e => Except.error e
      | Except.ok vs => Except.ok (v :: vs)

/-- F.smooth_l1_loss between two scalars (default beta = 1). -/
def smoothL1 (a b : ℚ) : ℚ :=
  if |a - b| < 1 then (a - b) ^ 2 / 2 else |a - b| - 1 / 2

/-- torch.clamp(x, lo, hi). -/
def clampQ (x lo hi : ℚ) : ℚ := max lo (min hi x)

/-- The scalar diagnostics returned by A2C.training_step. -/
structure Diagnostics where
  a_loss : ℚ
  v_loss : ℚ
  mean_value : ℚ
  mean_concentration : ℚ
  mean_std : ℚ
  mean_log_prob : ℚ
  std_log_prob : ℚ
deriving DecidableEq

/-- A2C.training_step. stdT models torch.Tensor.std (normalizing the
returns) and npStd models np.std (the log-prob diagnostic); both are square
roots in the library and hence parameters here. The optimizer steps touch
only network parameters, never the buffers, and stay outside the model.
Exceptions follow the source order: tensor.item() on a stored non-singleton
value raises first, then torch.stack raises on the empty loss list arising
when either buffer is empty; only a completed call reaches the final
deletion of both buffers. -/
def training_step (stdT npStd : List ℚ → ℚ) (eps : ℚ) (s : AgentBuffers) :
    Except TrainErrKind (AgentBuffers × Diagnostics) :=
  let returnsRaw := discountedReturns gammaQ s.rewards
  let returnsNorm := returnsRaw.map (fun r => (r - npMean returnsRaw) / (stdT returnsRaw + eps))
  let log_probs := s.saved_actions.map (fun sa => sa.log_prob)
  match itemsOf s.saved_actions with
  | Except.error e => Except.error e
  | Except.ok values =>
    let mean_value := npMean values
    let mean_concentration := npMean s.means_concentration
    let mean_std := npMean s.std_concentration
    let mean_log_prob := npMean log_probs
    let std_log_prob := npStd log_probs
    match (s.saved_actions.zip values).zip returnsNorm with
    | [] => Except.error TrainErrKind.emptyLossTensorList
    | tri0 :: triRest =>
      let triples := tri0 :: triRest
      let policy_losses := triples.map (fun t => -t.1.1.log_prob * (t.2 - t.1.2))
      let value_losses := triples.map (fun t => smoothL1 t.1.2 t.2)
      let a_loss := clampQ policy_losses.sum (-1000) 1000
      let v_loss := value_losses.sum
      Except.ok (⟨[], [], s.means_concentration, s.std_concentration⟩,
        ⟨a_loss, v_loss, mean_value, mean_concentration, mean_std, mean_log_prob, std_log_prob⟩)

/-- The buffer effect of A2C.set_env: the two concentration statistics
buffers are emptied; saved_actions and rewards are untouched (the method
also swaps the env and the parser, which hold no buffer state). -/
def set_env (s : AgentBuffers) : AgentBuffers :=
  ⟨s.saved_actions, s.rewards, [], []⟩

/-- A2C.select_action including its buffer effect: when at least one node
participates it appends np.mean and np.std of the participating
concentrations to the statistics buffers, and it always appends the
SavedAction(log_prob_dirichlet + log_prob_for_zeros, value) record, where
value is the critic output tensor of the step. -/
def selectAction (lg : ℚ → ℚ) (npStd : List ℚ → ℚ) (conc nz : List ℚ)
    (draws : List Bool) (evalMode : Bool) (dirSample : List ℚ) (dirLogProb : ℚ)
    (value : List ℚ) (s : AgentBuffers) : Option (AgentBuffers × List ℚ) :=
  match selectActionCore lg conc nz draws evalMode dirSample dirLogProb with
  | none => none
  | some res =>
    let cwz := concentrationWithoutZeros conc draws
    let means := if cwz.isEmpty then s.means_concentration
      else s.means_concentration ++ [npMean cwz]
    let stds := if cwz.isEmpty then s.std_concentration
      else s.std_concentration ++ [npStd cwz]
    some (⟨s.saved_actions ++ [⟨res.logProb, value⟩], s.rewards, means, stds⟩, res.action)

/-- Modelled from the spec: the driver-side ACCUMULATING step appends the
environment reward right after recording the action; the reward append
itself lives in the training driver, which is not under src. From the spec:
ACCUMULATING (append (log-prob, value) and reward each step). -/
def recordStep (lg : ℚ → ℚ) (npStd : List ℚ → ℚ) (conc nz : List ℚ)
    (draws : List Bool) (evalMode : Bool) (dirSample : List ℚ) (dirLogProb : ℚ)
    (value : List ℚ) (reward : ℚ) (s : AgentBuffers) : Option AgentBuffers :=
  match selectAction lg npStd conc nz draws evalMode dirSample dirLogProb value s with
  | none => none
  | some (s1, _) =>
    some ⟨s1.saved_actions, s1.rewards ++ [reward],
      s1.means_concentration, s1.std_concentration⟩

lemma discountedReturns_cons (gamma r : ℚ) (rest : List ℚ) :
    discountedReturns gamma (r :: rest) =
      (r + gamma * (discountedReturns gamma rest).headD 0) :: discountedReturns gamma rest := by
  rfl

/-- Claim C4: the discounted-return list has one entry per reward, satisfies
the backward recurrence (entry t equals reward t plus gamma times entry
t + 1), ends with the last reward, and on rewards [1, 1, 1] with
gamma = 0.97 equals [2.9409, 1.97, 1] in forward time order. -/
theorem discounted_returns_spec :
    (∀ (gamma : ℚ) (rws : List ℚ), (discountedReturns gamma rws).length = rws.length) ∧
    (∀ (gamma : ℚ) (rws : List ℚ) (i : ℕ), i + 1 < rws.length →
      (discountedReturns gamma rws).getD i 0 =
        rws.getD i 0 + gamma * (discountedReturns gamma rws).getD (i + 1) 0) ∧
    (∀ (gamma : ℚ) (rws : List ℚ),
      (discountedReturns gamma rws).getLast? = rws.getLast?) ∧
    discountedReturns gammaQ [1, 1, 1] = [29109 / 10000, 197 / 100, 1] := by
  refine ⟨?_, ?_, ?_, ?_⟩
  · intro gamma rws
    induction rws with
    | nil => rfl
    | cons r rest ih => rw [discountedReturns_cons, List.length_cons, List.length_cons, ih]
  · intro gamma rws
    induction rws with
    | nil => intro i h; simp at h
    | cons r rest ih =>
      intro i h
      match i with
      | 0 =>
        match rest with
        | [] => simp at h
        | r2 :: t =>
          rw [discountedReturns_cons, discountedReturns_cons]
          simp
      | j + 1 =>
        have hj : j + 1 < rest.length := by
          simp only [List.length_cons] at h
          omega
        rw [discountedReturns_cons]
        simpa using ih j hj
  · intro gamma rws
    induction rws with
    | nil => rfl
    | cons r rest ih =>
      match rest with
      | [] => simp [discountedReturns_cons, discountedReturns]
      | r2 :: t =>
        rw [discountedReturns_cons, discountedReturns_cons, List.getLast?_cons_cons,
          ← discountedReturns_cons, ih, List.getLast?_cons_cons]
  · norm_num [discountedReturns, gammaQ]

/-- Claim C4 as stated is false at its own concrete input: on rewards
[1, 1, 1] with gamma = 0.97 the code yields [2.9109, 1.97, 1]; the decimal
2.9409 given for the first entry contradicts the symbolic value
1 + 0.97 + 0.97 squared = 2.9109 that the same sentence states. -/
theorem discounted_returns_claimed_decimal_false :
    discountedReturns gammaQ [1, 1, 1] ≠ [29409 / 10000, 197 / 100, 1] := by
  norm_num [discountedReturns, gammaQ]

/-- Closed instance of C4: the backward recurrence evaluated at index 0 of
the reward sequence [1, 1, 1]. -/
theorem discounted_returns_spec_witness :
    (0 + 1 < ([1, 1, 1] : List ℚ).length) ∧
      (discountedReturns gammaQ [1, 1, 1]).getD 0 0 =
        ([1, 1, 1] : List ℚ).getD 0 0 +
          gammaQ * (discountedReturns gammaQ [1, 1, 1]).getD (0 + 1) 0 :=
  ⟨by simp, discounted_returns_spec.2.1 gammaQ [1, 1, 1] 0 (by simp)⟩

lemma itemsOf_ok (l : List SavedAction) (vs : List ℚ)
    (h : itemsOf l = Except.ok vs) : ∀ sa ∈ l, sa.value.length = 1 := by
  induction l generalizing vs with
  | nil => intro sa hsa; cases hsa
  | cons a t ih =>
    intro sa hsa
    simp only [itemsOf] at h
    cases hv : tensorItem a.value with
    | error e => rw [hv] at h; simp at h
    | ok v =>
      rw [hv] at h
      cases hio : itemsOf t with
      | error e => rw [hio] at h; simp at h
      | ok vs' =>
        rcases List.mem_cons.mp hsa with rfl | hmem
        · cases hval : sa.value with
          | nil => simp [tensorItem, hval] at hv
          | cons x xs =>
            cases xs with
            | nil => simp [hval]
            | cons y ys => simp [tensorItem, hval] at hv
        · exact ih vs' hio sa hmem

lemma itemsOf_error_of_long (l : List SavedAction) (N : ℕ) (hN : 1 < N)
    (hall : ∀ sa ∈ l, sa.value.length = N) (hne : l ≠ []) :
    itemsOf l = Except.error TrainErrKind.itemNotScalar := by
  cases l with
  | nil => exact absurd rfl hne
  | cons a t =>
    have ha := hall a (List.mem_cons_self a t)
    have hv : tensorItem a.value = Except.error TrainErrKind.itemNotScalar := by
      cases hval : a.value with
      | nil => rfl
      | cons x xs =>
        cases xs with
        | nil =>
          rw [hval] at ha
          simp at ha
          omega
        | cons y ys => rfl
    simp only [itemsOf, hv]

/-- Claim C5: one accumulation step (select_action followed by the reward
append) preserves equality of the two buffer lengths, and a training_step
call that completes resets both buffers to length 0 in the same update,
whatever their lengths were before. -/
theorem buffer_invariant_and_reset :
    (∀ (lg : ℚ → ℚ) (npStd : List ℚ → ℚ) (conc nz : List ℚ) (draws : List Bool)
      (evalMode : Bool) (dirSample : List ℚ) (dirLogProb : ℚ) (value : List ℚ)
      (reward : ℚ) (s s' : AgentBuffers),
      recordStep lg npStd conc nz draws evalMode dirSample dirLogProb value reward s =
        some s' →
      s.saved_actions.length = s.rewards.length →
      s'.saved_actions.length = s'.rewards.length) ∧
    (∀ (stdT npStd : List ℚ → ℚ) (eps : ℚ) (s s' : AgentBuffers) (d : Diagnostics),
      training_step stdT npStd eps s = Except.ok (s', d) →
      s'.saved_actions.length = 0 ∧ s'.rewards.length = 0) := by
  constructor
  · intro lg npStd conc nz draws evalMode dirSample dirLogProb value reward s s' h hlen
    unfold recordStep selectAction at h
    cases hcore : selectActionCore lg conc nz draws evalMode dirSample dirLogProb with
    | none => rw [hcore] at h; simp at h
    | some res =>
      rw [hcore] at h
      simp only [Option.some.injEq] at h
      subst h
      simp [List.length_append, hlen]
  · intro stdT npStd eps s s' d h
    unfold training_step at h
    split at h
    · simp at h
    · dsimp only at h
      split at h
      · simp at h
      · simp only [Except.ok.injEq, Prod.mk.injEq] at h
        obtain ⟨hs, hd⟩ := h
        subst hs
        exact ⟨rfl, rfl⟩

/-- Closed instance of C5: a concrete accumulation step keeps the buffer
lengths equal, and a concrete completed update resets both to length 0. -/
theorem buffer_invariant_and_reset_witness :
    ((⟨[⟨0, [0]⟩], [2], [1], [0]⟩ : AgentBuffers).saved_actions.length =
        (⟨[⟨0, [0]⟩], [2], [1], [0]⟩ : AgentBuffers).rewards.length) ∧
    (training_step (fun _ => 0) (fun _ => 0) epsQ ⟨[⟨0, [0]⟩], [0], [], []⟩ =
        Except.ok (⟨[], [], [], []⟩, ⟨0, 0, 0, 0, 0, 0, 0⟩) ∧
      (⟨[], [], [], []⟩ : AgentBuffers).saved_actions.length = 0 ∧
      (⟨[], [], [], []⟩ : AgentBuffers).rewards.length = 0) := by
  have hstep : recordStep (fun _ => 0) (fun _ => 0) [1] [1 / 2] [true] false [1] 0 [0] 2
      ⟨[], [], [], []⟩ = some ⟨[⟨0, [0]⟩], [2], [1], [0]⟩ := by
    simp [recordStep, selectAction, selectActionCore, concentrationWithoutZeros,
      logProbForZeros, reassembleAction, npMean]
  have hok : training_step (fun _ => 0) (fun _ => 0) epsQ ⟨[⟨0, [0]⟩], [0], [], []⟩ =
      Except.ok (⟨[], [], [], []⟩, ⟨0, 0, 0, 0, 0, 0, 0⟩) := by
    simp [training_step, itemsOf, tensorItem, discountedReturns, npMean, smoothL1,
      clampQ, gammaQ]
  exact ⟨buffer_invariant_and_reset.1 (fun _ => 0) (fun _ => 0) [1] [1 / 2] [true] false
      [1] 0 [0] 2 ⟨[], [], [], []⟩ ⟨[⟨0, [0]⟩], [2], [1], [0]⟩ hstep rfl,
    hok, buffer_invariant_and_reset.2 (fun _ => 0) (fun _ => 0) epsQ
      ⟨[⟨0, [0]⟩], [0], [], []⟩ ⟨[], [], [], []⟩ ⟨0, 0, 0, 0, 0, 0, 0⟩ hok⟩

/-- Claim C9: training_step extracts each stored value with tensor.item(),
defined only on a one-element tensor; a completed call therefore forces
every recorded value tensor to be a single scalar (one node), and when
every recorded value has N > 1 entries (a graph with more than one node)
and at least one step was recorded, training_step raises instead of
completing. -/
theorem training_step_item_scalar :
    (∀ (stdT npStd : List ℚ → ℚ) (eps : ℚ) (s s' : AgentBuffers) (d : Diagnostics),
      training_step stdT npStd eps s = Except.ok (s', d) →
      ∀ sa ∈ s.saved_actions, sa.value.length = 1) ∧
    (∀ (stdT npStd : List ℚ → ℚ) (eps : ℚ) (s : AgentBuffers) (N : ℕ), 1 < N →
      (∀ sa ∈ s.saved_actions, sa.value.length = N) →
      s.saved_actions ≠ [] →
      training_step stdT npStd eps s = Except.error TrainErrKind.itemNotScalar) := by
  constructor
  · intro stdT npStd eps s s' d h
    unfold training_step at h
    split at h
    · simp at h
    · rename_i values heq
      exact itemsOf_ok s.saved_actions values heq
  · intro stdT npStd eps s N hN hall hne
    unfold training_step
    rw [itemsOf_error_of_long s.saved_actions N hN hall hne]

/-- Closed instance of C9: a two-node value tensor recorded in the buffer
makes training_step raise the item error. -/
theorem training_step_item_scalar_witness :
    ((1 : ℕ) < 2 ∧ (∀ sa ∈ ([⟨0, [1, 2]⟩] : List SavedAction), sa.value.length = 2) ∧
      ([⟨0, [1, 2]⟩] : List SavedAction) ≠ []) ∧
    training_step (fun _ => 0) (fun _ => 0) epsQ ⟨[⟨0, [1, 2]⟩], [1], [], []⟩ =
      Except.error TrainErrKind.itemNotScalar :=
  ⟨⟨by simp, by simp, by simp⟩,
    training_step_item_scalar.2 (fun _ => 0) (fun _ => 0) epsQ
      ⟨[⟨0, [1, 2]⟩], [1], [], []⟩ 2 (by simp) (by simp) (by simp)⟩

/-- Claim C10: a completed training_step clears only the reward and
saved-action buffers; means_concentration and std_concentration are left
unchanged and the returned mean-concentration diagnostic is the numpy mean
of the whole means_concentration buffer; set_env is the operation that
empties those two buffers while touching neither of the other two. -/
theorem training_step_frame_concentration_stats :
    (∀ (stdT npStd : List ℚ → ℚ) (eps : ℚ) (s s' : AgentBuffers) (d : Diagnostics),
      training_step stdT npStd eps s = Except.ok (s', d) →
      s'.means_concentration = s.means_concentration ∧
      s'.std_concentration = s.std_concentration ∧
      s'.rewards = [] ∧ s'.saved_actions = [] ∧
      d.mean_concentration = npMean s.means_concentration ∧
      d.mean_std = npMean s.std_concentration) ∧
    (∀ s : AgentBuffers, (set_env s).means_concentration = [] ∧
      (set_env s).std_concentration = [] ∧
      (set_env s).saved_actions = s.saved_actions ∧
      (set_env s).rewards = s.rewards) := by
  constructor
  · intro stdT npStd eps s s' d h
    unfold training_step at h
    split at h
    · simp at h
    · dsimp only at h
      split at h
      · simp at h
      · simp only [Except.ok.injEq, Prod.mk.injEq] at h
        obtain ⟨hs, hd⟩ := h
        subst hs
        subst hd
        exact ⟨rfl, rfl, rfl, rfl, rfl, rfl⟩
  · intro s
    exact ⟨rfl, rfl, rfl, rfl⟩

/-- Closed instance of C10: a completed update on a buffer state with
recorded concentration statistics [3] and [5] keeps them and reports their
means, while set_env empties them. -/
theorem training_step_frame_concentration_stats_witness :
    (training_step (fun _ => 0) (fun _ => 0) epsQ ⟨[⟨0, [0]⟩], [0], [3], [5]⟩ =
      Except.ok (⟨[], [], [3], [5]⟩, ⟨0, 0, 0, 3, 5, 0, 0⟩)) ∧
    ((⟨[], [], [3], [5]⟩ : AgentBuffers).means_concentration = [3] ∧
      (⟨[], [], [3], [5]⟩ : AgentBuffers).std_concentration = [5] ∧
      (⟨[], [], [3], [5]⟩ : AgentBuffers).rewards = [] ∧
      (⟨[], [], [3], [5]⟩ : AgentBuffers).saved_actions = [] ∧
      (⟨0, 0, 0, 3, 5, 0, 0⟩ : Diagnostics).mean_concentration =
        npMean ([3] : List ℚ) ∧
      (⟨0, 0, 0, 3, 5, 0, 0⟩ : Diagnostics).mean_std = npMean ([5] : List ℚ)) ∧
    ((set_env ⟨[⟨0, [0]⟩], [0], [3], [5]⟩).means_concentration = [] ∧
      (set_env ⟨[⟨0, [0]⟩], [0], [3], [5]⟩).std_concentration = [] ∧
      (set_env ⟨[⟨0, [0]⟩], [0], [3], [5]⟩).saved_actions = [⟨0, [0]⟩] ∧
      (set_env ⟨[⟨0, [0]⟩], [0], [3], [5]⟩).rewards = [0]) := by
  have hok : training_step (fun _ => 0) (fun _ => 0) epsQ ⟨[⟨0, [0]⟩], [0], [3], [5]⟩ =
      Except.ok (⟨[], [], [3], [5]⟩, ⟨0, 0, 0, 3, 5, 0, 0⟩) := by
    simp [training_step, itemsOf, tensorItem, discountedReturns, npMean, smoothL1,
      clampQ, gammaQ]
  exact ⟨hok,
    training_step_frame_concentration_stats.1 (fun _ => 0) (fun _ => 0) epsQ
      ⟨[⟨0, [0]⟩], [0], [3], [5]⟩ ⟨[], [], [3], [5]⟩ ⟨0, 0, 0, 3, 5, 0, 0⟩ hok,
    training_step_frame_concentration_stats.2 ⟨[⟨0, [0]⟩], [0], [3], [5]⟩⟩

end A2CGNN
